import Mathlib

/-!
Shallow embedding of `kids/cfg/__init__.py` (repository `0k/kids.cfg`).

The file models:
  * the discovery engine `find_files` / `find_file` (source lines 582-838);
  * the default search policy assembled by `load` (lines 549-579) and the
    wrapper `load_files` (lines 541-543);
  * the dialect auto-detection `choose_cfg_manager` over the registry
    `_GENERIC_CFG = [PyCfg, ConfigObjCfg, YamlCfg]` (lines 145-157), with
    the per-instance lazy `_cfg` cache made explicit;
  * the `Config` view (lines 487-529): the `_cfg` truthiness guard,
    `__getitem__` descent into nested mappings, and `__setitem__`
    mutate-then-save ordering.

External collaborators that are not part of this repository's source
(`kids.data.mdict` path tokenization and nested-mapping navigation,
`kids.data.dct` containment, the `kids.cache` memoizer) are modelled from
the spec where noted in the individual doc comments.

Python filenames are `String`s; a supplier (`get_filename` in the source)
is represented by its pre-evaluated outcome `Except String (Option String)`
(`.error e` stands for the call raising exception `e`, `.ok none` for
returning `None`, `.ok (some s)` for returning the string `s`); the
filesystem is a predicate `String → Bool` standing for `os.path.exists`.
-/

set_option autoImplicit false

namespace KidsCfg

instance {ε α : Type} [DecidableEq ε] [DecidableEq α] : DecidableEq (Except ε α) := fun a b =>
  match a, b with
  | .error e, .error e' =>
    if h : e = e' then .isTrue (by rw [h]) else .isFalse (by simp [h])
  | .ok x, .ok y =>
    if h : x = y then .isTrue (by rw [h]) else .isFalse (by simp [h])
  | .error _, .ok _ => .isFalse (by simp)
  | .ok _, .error _ => .isFalse (by simp)

/-! ## Discovery engine (`find_files`, source lines 582-723) -/

/-- One candidate rule of a research structure: the 3-uple
`(enforce_file_existence, cascaded, get_filename)` of the source, with
the supplier replaced by its pre-evaluated outcome. -/
structure FileRule where
  enforce_file_existence : Bool
  cascaded : Bool
  get_filename : Except String (Option String)
deriving DecidableEq, Repr

/-- The exceptions `find_files` can propagate: an exception raised by a
supplier call `fun()`, the `ValueError("File %r does not exists.")` of
line 712, and the `ValueError("No config file was found in those paths:
%s.")` of lines 721-722 carrying the comma-joined searched paths. -/
inductive FindError where
  | supplier_raised : String → FindError
  | file_missing : String → FindError
  | no_file_found : String → FindError
deriving DecidableEq, Repr

/-- The lookup loop of `find_files` (source lines 707-719), with the two
accumulators `filenames` and `paths_searched` made explicit.  Python
truthiness of `if candidate:` (line 709) skips both `None` and the empty
string. -/
def find_files_loop (fs_exists : String → Bool) :
    List FileRule → List String → List String →
    Except FindError (List String × List String)
  | [], filenames, paths_searched => .ok (filenames, paths_searched)
  | r :: rest, filenames, paths_searched =>
    match r.get_filename with
    | .error e => .error (.supplier_raised e)
    | .ok none => find_files_loop fs_exists rest filenames paths_searched
    | .ok (some c) =>
      if c.isEmpty then
        find_files_loop fs_exists rest filenames paths_searched
      else if ! fs_exists c then
        if r.enforce_file_existence then
          .error (.file_missing c)
        else
          find_files_loop fs_exists rest filenames (paths_searched ++ [c])
      else
        if ! r.cascaded then
          .ok (filenames ++ [c], paths_searched)
        else
          find_files_loop fs_exists rest (filenames ++ [c]) paths_searched

/-- `find_files` (source lines 582-723): runs the lookup loop and, when no
filename was collected and `raise_on_all_missing` holds, raises the
"no config file was found" error listing the searched paths in order,
comma-joined (line 721-722). -/
def find_files (research_structure : List FileRule) (fs_exists : String → Bool)
    (raise_on_all_missing : Bool) : Except FindError (List String) :=
  match find_files_loop fs_exists research_structure [] [] with
  | .error e => .error e
  | .ok (filenames, paths_searched) =>
    if filenames.isEmpty && raise_on_all_missing then
      .error (.no_file_found (String.intercalate ", " paths_searched))
    else
      .ok filenames

/-- `find_file` (source lines 726-838): wraps `find_files` over the list of
pairs `(enforce_file_existence, get_filename)` with `cascaded` set to
`False` on every rule, and returns `filenames[0]`, or `None` when the
returned list is empty. -/
def find_file (research_structure : List (Bool × Except String (Option String)))
    (fs_exists : String → Bool) (raise_on_all_missing : Bool) :
    Except FindError (Option String) :=
  match find_files
      (research_structure.map (fun p => ⟨p.1, false, p.2⟩))
      fs_exists raise_on_all_missing with
  | .error e => .error e
  | .ok [] => .ok none
  | .ok (f :: _) => .ok (some f)

/-- Refinement side for C8, following the spec's words: `find_file` "wraps
`find_files` with `cascade` forced false on every rule, and returns the
sole result or `null` when the list is empty and missing is tolerated". -/
def find_file_spec (research_structure : List (Bool × Except String (Option String)))
    (fs_exists : String → Bool) (raise_on_all_missing : Bool) :
    Except FindError (Option String) :=
  Except.map List.head?
    (find_files (research_structure.map (fun p => ⟨p.1, false, p.2⟩))
      fs_exists raise_on_all_missing)

/-- The filename produced by the first rule, in order, whose supplier
returns a truthy value that exists on disk (raising or falsy suppliers
produce no filename and are passed over). -/
def first_existing (fs_exists : String → Bool) : List FileRule → Option String
  | [] => none
  | r :: rest =>
    match r.get_filename with
    | .ok (some c) =>
      if !c.isEmpty && fs_exists c then some c else first_existing fs_exists rest
    | _ => first_existing fs_exists rest

/-- A rule that lets the loop continue past it without raising or
short-circuiting: its supplier returns normally, and its candidate is
either falsy, or missing without `enforce_file_existence`, or existing
with `cascaded`. -/
def continues_past (fs_exists : String → Bool) (r : FileRule) : Bool :=
  match r.get_filename with
  | .error _ => false
  | .ok none => true
  | .ok (some c) =>
    c.isEmpty || (if fs_exists c then r.cascaded else !r.enforce_file_existence)

/-- A rule that contributes no filename and raises nothing: its supplier
returns normally and its candidate is either falsy or missing without
`enforce_file_existence`. -/
def tolerated_missing (fs_exists : String → Bool) (r : FileRule) : Bool :=
  match r.get_filename with
  | .error _ => false
  | .ok none => true
  | .ok (some c) => c.isEmpty || (!fs_exists c && !r.enforce_file_existence)

/-- The truthy candidates of a rule list, in order (the paths a fully
unsuccessful search reports as searched). -/
def searched_paths : List FileRule → List String
  | [] => []
  | r :: rest =>
    match r.get_filename with
    | .ok (some c) =>
      if c.isEmpty then searched_paths rest else c :: searched_paths rest
    | _ => searched_paths rest

/-! ## `load_files` and `load` (source lines 541-579) -/

/-- The read overlay built by `load_files`: `dct.MultiDictReader` over one
`Config` per filename. The merge collaborator `kids.data.dct` is outside
this repository; what `load_files` contributes — and all claim C4 needs —
is the ordered list of filenames it passes on, recorded here. -/
structure MultiDictReader where
  filenames : List String
deriving DecidableEq, Repr

/-- `load_files` (source lines 541-543): builds one config per filename and
hands the whole ordered list to the overlay reader. -/
def load_files (filenames : List String) : MultiDictReader :=
  ⟨filenames⟩

/-- The default `config_struct` assembled by `load` (source lines 559-575)
when none is passed.  `environ` models `os.environ.get`, `expanduser`
models `os.path.expanduser`, and `local_path` uses Python truthiness
(line 567: `if local_path:`).  The supplier of line 569 reads the name
`b`, which is bound nowhere in the module, so calling it raises
`NameError`; its pre-evaluated outcome is therefore an `.error`.  Note
the source appends the `~/.<basename>.rc` rule twice (lines 572-573). -/
def default_config_struct (basename : String) (config_file : Option String)
    (environ : String → Option String) (local_path : Option String)
    (expanduser : String → String) : List FileRule :=
  [⟨true, false, .ok config_file⟩,
   ⟨true, false, .ok (environ (basename.toUpper ++ "_CONFIG_FILENAME"))⟩]
  ++ (match local_path with
      | some p => if p.isEmpty then [] else
          [⟨false, true, .error "NameError: name b is not defined"⟩]
      | none => [])
  ++ [⟨false, true, .ok (some (expanduser ("~/." ++ basename ++ ".rc")))⟩,
      ⟨false, true, .ok (some (expanduser ("~/." ++ basename ++ ".rc")))⟩,
      ⟨false, true, .ok (some ("/etc/" ++ basename ++ ".rc"))⟩]

/-- `load` (source lines 549-579), for the case where `basename` is given
and no explicit `config_struct` is passed.  The `default` parameter is
`none` when the caller supplied no default (the `Null` sentinel of line
546), so `raise_on_all_missing` is `default is Null` (line 577).  Returns
`.inl` with the overlay over the discovered filenames, or `.inr default`
when no filename was discovered. -/
def load {V : Type} (basename : String) (default : Option V)
    (config_file : Option String) (environ : String → Option String)
    (local_path : Option String) (expanduser : String → String)
    (fs_exists : String → Bool) : Except FindError (MultiDictReader ⊕ Option V) :=
  match find_files
      (default_config_struct basename config_file environ local_path expanduser)
      fs_exists default.isNone with
  | .error e => .error e
  | .ok filenames =>
    if filenames.length > 0 then .ok (.inl (load_files filenames))
    else .ok (.inr default)

/-! ## Dialects and auto-detection (source lines 15-157)

The three registered dialects parse with external parsers (`exec` of
Python source, `configobj`, `yaml`), so a concrete run of the registry
is abstracted by a function `parse : Dialect → String → Option M`
giving, for each dialect and filename, either the parsed mapping or
`none` when the parser raises.  The `@cache @property` memoization of
`_cfg` is modelled from the spec: "a memoizing property-cache decorator"
(§6) where "each Backend instance owns exactly one cached mapping" (§9),
made explicit as an `Option M` field per instance. -/

/-- The three dialects registered in `_GENERIC_CFG` (source line 145). -/
inductive Dialect where
  | PyCfg
  | ConfigObjCfg
  | YamlCfg
deriving DecidableEq, Repr

/-- The registry, in its fixed priority order (source line 145). -/
def _GENERIC_CFG : List Dialect :=
  [.PyCfg, .ConfigObjCfg, .YamlCfg]

/-- A `Cfg` manager instance: dialect, filename (line 17-18) and the
per-instance memo of the lazy `_cfg` property, empty at construction. -/
structure CfgInstance (M : Type) where
  dialect : Dialect
  filename : String
  cfg_cache : Option M
deriving DecidableEq, Repr

/-- `cm(filename)`: constructing an instance parses nothing — the memo
starts empty. -/
def mkCfgInstance {M : Type} (d : Dialect) (f : String) : CfgInstance M :=
  ⟨d, f, none⟩

/-- Accessing `._cfg`: returns the memo when filled (zero parser
invocations), otherwise invokes the parser once, caching on success.
The second component counts parser invocations performed by the
access. -/
def force_cfg {M : Type} (parse : Dialect → String → Option M)
    (c : CfgInstance M) : Option (M × CfgInstance M) × Nat :=
  match c.cfg_cache with
  | some m => (some (m, c), 0)
  | none =>
    match parse c.dialect c.filename with
    | some m => (some (m, { c with cfg_cache := some m }), 1)
    | none => (none, 1)

/-- The loop of `choose_cfg_manager` (source lines 149-154): for each
dialect, build a trial instance and force its `_cfg`; on success return
`cm(filename)` — a second, freshly constructed instance (line 152), not
the trial one.  The `Nat` accumulates parser invocations. -/
def choose_cfg_manager_go {M : Type} (parse : Dialect → String → Option M)
    (filename : String) : List Dialect → Nat → Except String (CfgInstance M × Nat)
  | [], _ =>
    .error ("No config parser manage to read config file " ++ filename ++ ".")
  | cm :: rest, n =>
    match force_cfg parse (mkCfgInstance cm filename) with
    | (some _, k) => .ok (mkCfgInstance cm filename, n + k)
    | (none, k) => choose_cfg_manager_go parse filename rest (n + k)

/-- `choose_cfg_manager` (source lines 148-157). -/
def choose_cfg_manager {M : Type} (parse : Dialect → String → Option M)
    (filename : String) : Except String (CfgInstance M × Nat) :=
  choose_cfg_manager_go parse filename _GENERIC_CFG 0

/-- The first dialect of a registry list whose parse of `filename`
succeeds. -/
def first_parsing {M : Type} (parse : Dialect → String → Option M)
    (filename : String) : List Dialect → Option Dialect
  | [] => none
  | d :: rest =>
    if (parse d filename).isSome then some d else first_parsing parse filename rest

/-! ## PathCodec and nested-mapping navigation

Modelled from the spec: the tokenizer/navigation primitive is
`kids.data.mdict`, which is not part of this repository's source.  Per
spec §2/§6, `tokenize` splits a dotted path into raw keys "honoring an
escape character so that literal separators and escape characters can
appear inside a key"; the navigation primitive walks a nested mapping
key by key, and `set` creates intermediate mappings along the path (the
source docstring, lines 337-355, shows `cfg['k.u'] = 2` creating the
section `k`).  The escape character is rendered as a backslash. -/

/-- Modelled from the spec: character-level tokenizer loop.  `acc` holds
the key being built; a backslash escapes the next character, a bare dot
closes the current key. -/
def tokChars : List Char → List Char → List (List Char)
  | [], acc => [acc]
  | c :: rest, acc =>
    if c = '\\' then
      match rest with
      | [] => [acc ++ ['\\']]
      | c2 :: rest2 => tokChars rest2 (acc ++ [c2])
    else if c = '.' then
      acc :: tokChars rest []
    else
      tokChars rest (acc ++ [c])

/-- Modelled from the spec: `PathCodec.tokenize`. -/
def tokenize (path : String) : List String :=
  (tokChars path.data []).map (fun l => ⟨l⟩)

/-- A nested configuration value: an atom (any non-mapping Python value,
drawn from `α`) or a mapping given as an ordered association list. -/
inductive NVal (α : Type) where
  | atom : α → NVal α
  | dict : List (String × NVal α) → NVal α

/-- First-match lookup of one key in an association list. -/
def lookupKey {α : Type} : List (String × NVal α) → String → Option (NVal α)
  | [], _ => none
  | (k', v) :: rest, k => if k' = k then some v else lookupKey rest k

/-- Replace the binding of `k` in place, or append it at the end. -/
def setKey {α : Type} : List (String × NVal α) → String → NVal α →
    List (String × NVal α)
  | [], k, v => [(k, v)]
  | (k', v') :: rest, k, v =>
    if k' = k then (k, v) :: rest else (k', v') :: setKey rest k v

/-- The entries of a value viewed as a mapping (an atom has none). -/
def childEntries {α : Type} : NVal α → List (String × NVal α)
  | .atom _ => []
  | .dict es => es

/-- Modelled from the spec: nested-mapping `get` along a key sequence;
`none` is the "missing key" condition. -/
def mget {α : Type} : List String → NVal α → Option (NVal α)
  | [], v => some v
  | k :: ks, v =>
    match v with
    | .atom _ => none
    | .dict es =>
      match lookupKey es k with
      | some child => mget ks child
      | none => none

/-- Modelled from the spec: nested-mapping `set` along a key sequence,
creating intermediate mappings where the path does not yet exist. -/
def mset {α : Type} : List String → NVal α → NVal α → NVal α
  | [], newv, _ => newv
  | k :: ks, newv, v =>
    .dict (setKey (childEntries v) k
      (mset ks newv
        (match lookupKey (childEntries v) k with
         | some child => child
         | none => .dict [])))

/-! ## The `Config` view (source lines 487-529)

A view is `Config(config, prefix, cfg)`: the manager's cached root
mapping stands for `self._cfg_manager._cfg` (always a mapping at the
root), `can_save` records whether the manager's `save` is implemented
(`False` for the read-only `PyCfg`, whose inherited `save`, lines 25-26,
raises `NotImplementedError`), and `provided_cfg` is the `cfg` argument
passed when descending (`res.dct` at line 517), `none` for a root view.
The `prefix` (display only, per spec §3) is not tracked. -/

structure ConfigView (α : Type) where
  manager_cfg : List (String × NVal α)
  can_save : Bool
  provided_cfg : Option (List (String × NVal α))

/-- `Config._cfg` (source lines 493-499): `if self._provided_cfg:` uses
Python truthiness, so an *empty* provided mapping falls through to the
manager's root mapping. -/
def view_cfg {α : Type} (v : ConfigView α) : List (String × NVal α) :=
  match v.provided_cfg with
  | some es => if es.isEmpty then v.manager_cfg else es
  | none => v.manager_cfg

/-- `self._mcfg[label]` (source line 512): resolve the tokenized path
against the view's mapping; `none` is the `MissingKeyError` raised by
the navigation primitive. -/
def view_resolve_raw {α : Type} (v : ConfigView α) (label : String) :
    Option (NVal α) :=
  mget (tokenize label) (.dict (view_cfg v))

/-- What `Config.__getitem__` hands back: a plain value, or a descended
sub-view when the resolved value is a nested mapping. -/
inductive GetResult (α : Type) where
  | value : α → GetResult α
  | subview : ConfigView α → GetResult α

/-- `Config.__getitem__` (source lines 511-518): a resolved mapping is
wrapped into a new `Config` over the same manager with `cfg=res.dct`. -/
def view_getitem {α : Type} (v : ConfigView α) (label : String) :
    Option (GetResult α) :=
  match view_resolve_raw v label with
  | some (.atom a) => some (.value a)
  | some (.dict es) => some (.subview ⟨v.manager_cfg, v.can_save, some es⟩)
  | none => none

/-- `Config.__iter__` (source lines 520-521): the keys of the view's
mapping, in the mapping's order. -/
def view_keys {α : Type} (v : ConfigView α) : List String :=
  (view_cfg v).map Prod.fst

/-- Modelled from the spec: containment comes from the external overlay
base class `kids.data.dct.AttrDictAbstract`; per spec §4.3 it "tests
existence of a single top-level key". -/
def view_contains {α : Type} (v : ConfigView α) (k : String) : Bool :=
  (lookupKey (view_cfg v) k).isSome

/-- The error of a write attempted on a read-only dialect (the
`NotImplementedError` of `Cfg.save`, source lines 25-26; spec §7's
`UnsupportedWrite`). -/
inductive CfgError where
  | unsupported_write : CfgError
deriving DecidableEq, Repr

/-- `Config.__setitem__` (source lines 523-525): first mutate the shared
in-memory mapping through the navigation primitive, *then* call
`self._cfg_manager.save()`, which raises for a read-only dialect.  The
post-state is returned alongside the outcome: the mutation stays in
place even when `save` raises.  Stated over a root view (the mutated
mapping is the manager's). -/
def view_setitem {α : Type} (v : ConfigView α) (label : String)
    (val : NVal α) : Except CfgError Unit × ConfigView α :=
  let v' : ConfigView α :=
    { v with manager_cfg := childEntries (mset (tokenize label) val (.dict (view_cfg v))) }
  ((if v.can_save then .ok () else .error .unsupported_write), v')

/-! ## Helper lemmas on the discovery loop -/

theorem find_files_loop_nocascade {ex : String → Bool} :
    ∀ (rules : List FileRule) (ps l ps' : List String),
    (∀ r ∈ rules, r.cascaded = false) →
    find_files_loop ex rules [] ps = .ok (l, ps') →
    (l = [] ∧ first_existing ex rules = none) ∨
    (∃ f, l = [f] ∧ first_existing ex rules = some f) := by
  intro rules
  induction rules with
  | nil =>
    intro ps l ps' _ h
    simp only [find_files_loop, Except.ok.injEq, Prod.mk.injEq] at h
    exact Or.inl ⟨h.1.symm, rfl⟩
  | cons r rest ih =>
    intro ps l ps' hc h
    have hr : r.cascaded = false := hc r (by simp)
    have hrest : ∀ x ∈ rest, x.cascaded = false := fun x hx => hc x (by simp [hx])
    cases hg : r.get_filename with
    | error e =>
      simp [find_files_loop, hg] at h
    | ok cand =>
      cases cand with
      | none =>
        simp only [find_files_loop, hg] at h
        simpa [first_existing, hg] using ih ps l ps' hrest h
      | some c =>
        by_cases hce : c.isEmpty
        · simp only [find_files_loop, hg, hce, if_true] at h
          simpa [first_existing, hg, hce] using ih ps l ps' hrest h
        · by_cases hex : ex c
          · simp [find_files_loop, hg, hce, hex, hr] at h
            refine Or.inr ⟨c, h.1.symm, ?_⟩
            simp [first_existing, hg, hce, hex]
          · cases he : r.enforce_file_existence with
            | true =>
              simp [find_files_loop, hg, hce, hex, he] at h
            | false =>
              simp only [find_files_loop, hg, hce, hex, he] at h
              simp only [Bool.not_false, if_true, if_false, Bool.false_eq_true,
                Bool.not_true] at h
              simpa [first_existing, hg, hce, hex] using
                ih (ps ++ [c]) l ps' hrest h

/-- C1: for every candidate-rule list in which every rule has
`cascade=false`, `find_files` returns a list of length at most 1, whose
sole element (when present) is the filename produced by the first rule,
in order, whose produced filename exists on disk. -/
theorem find_files_all_nocascade_at_most_one
    (rules : List FileRule) (ex : String → Bool) (raise : Bool) (l : List String)
    (hc : ∀ r ∈ rules, r.cascaded = false)
    (h : find_files rules ex raise = .ok l) :
    l.length ≤ 1 ∧ ∀ f ∈ l, first_existing ex rules = some f := by
  unfold find_files at h
  cases hloop : find_files_loop ex rules [] [] with
  | error e => rw [hloop] at h; exact absurd h (by simp)
  | ok p =>
    obtain ⟨fns, ps⟩ := p
    rw [hloop] at h
    have hl : l = fns := by
      by_cases hb : fns.isEmpty && raise
      · simp [hb] at h
      · simpa [hb] using h.symm
    subst hl
    rcases find_files_loop_nocascade rules [] l ps hc hloop with
      ⟨h1, _⟩ | ⟨f, h1, h2⟩
    · subst h1; exact ⟨by simp, by simp⟩
    · subst h1
      refine ⟨by simp, ?_⟩
      intro g hg
      simp only [List.mem_singleton] at hg
      subst hg
      exact h2

theorem find_files_all_nocascade_at_most_one_witness :
    (["a"] : List String).length ≤ 1 ∧
    ∀ f ∈ (["a"] : List String),
      first_existing (fun s => s == "a")
        [⟨false, false, .ok (some "a")⟩] = some f :=
  find_files_all_nocascade_at_most_one
    [⟨false, false, .ok (some "a")⟩] (fun s => s == "a") true ["a"]
    (by intro r hr; simp only [List.mem_singleton] at hr; subst hr; rfl)
    (by rfl)

theorem find_files_loop_reaches_enforce {ex : String → Bool} {c : String}
    (hce : ¬ c.isEmpty = true) (hex : ex c = false) :
    ∀ (before : List FileRule) (casc : Bool) (after : List FileRule)
      (fns ps : List String),
    (∀ x ∈ before, continues_past ex x = true) →
    find_files_loop ex (before ++ ⟨true, casc, .ok (some c)⟩ :: after) fns ps
      = .error (.file_missing c) := by
  intro before
  induction before with
  | nil =>
    intro casc after fns ps _
    simp [find_files_loop, hce, hex]
  | cons x rest ih =>
    intro casc after fns ps hb
    have hx : continues_past ex x = true := hb x (by simp)
    have hrest : ∀ y ∈ rest, continues_past ex y = true :=
      fun y hy => hb y (by simp [hy])
    cases hg : x.get_filename with
    | error e => simp [continues_past, hg] at hx
    | ok cand =>
      cases cand with
      | none =>
        simp only [List.cons_append, find_files_loop, hg]
        exact ih casc after fns ps hrest
      | some d =>
        by_cases hde : d.isEmpty
        · simp only [List.cons_append, find_files_loop, hg, hde, if_true]
          exact ih casc after fns ps hrest
        · by_cases hdx : ex d
          · have hcasc : x.cascaded = true := by
              simpa [continues_past, hg, hde, hdx] using hx
            simp only [List.cons_append, find_files_loop, hg, hde, hdx, hcasc]
            simp only [Bool.not_true, if_false, Bool.false_eq_true, if_true]
            exact ih casc after (fns ++ [d]) ps hrest
          · have henf : x.enforce_file_existence = false := by
              simpa [continues_past, hg, hde, hdx] using hx
            simp only [List.cons_append, find_files_loop, hg, hde, hdx, henf]
            simp only [Bool.not_false, if_true, Bool.false_eq_true, if_false]
            exact ih casc after fns (ps ++ [d]) hrest

/-- C3 (counterexample): a rule list holding an `enforce_existence=true`
rule whose produced filename `"b"` does not exist, yet `find_files`
returns normally with `["a"]` — an earlier existing, non-cascading rule
short-circuits the loop before the enforce rule is ever evaluated, so
the claim's "regardless of the outcomes of the other rules" fails. -/
theorem find_files_enforce_missing_shortcircuit_cex :
    find_files [⟨false, false, .ok (some "a")⟩, ⟨true, true, .ok (some "b")⟩]
      (fun s => s == "a") true = .ok ["a"]
    ∧ (fun s => s == "a") "b" = false :=
  ⟨rfl, rfl⟩

/-- C3 (amended): for every candidate-rule list holding a rule with
`enforce_existence=true` whose supplier returns a truthy path that does
not exist on disk, `find_files` fails with the `RequiredFileMissing`
error naming that path — provided every earlier rule lets the loop
continue past it (its supplier returns normally and its candidate is
either falsy, or missing without enforcement, or existing with
`cascade=true`); otherwise an earlier rule short-circuits or fails
first. -/
theorem find_files_enforce_missing_fails
    (before after : List FileRule) (ex : String → Bool)
    (raise casc : Bool) (c : String)
    (hb : ∀ x ∈ before, continues_past ex x = true)
    (hce : ¬ c.isEmpty = true) (hex : ex c = false) :
    find_files (before ++ ⟨true, casc, .ok (some c)⟩ :: after) ex raise
      = .error (.file_missing c) := by
  unfold find_files
  rw [find_files_loop_reaches_enforce hce hex before casc after [] [] hb]

theorem find_files_enforce_missing_fails_witness :
    find_files ([⟨false, true, .ok (some "a")⟩]
        ++ ⟨true, false, .ok (some "b")⟩ :: [⟨false, false, .ok (some "z")⟩])
      (fun s => s == "a") true = .error (.file_missing "b") :=
  find_files_enforce_missing_fails
    [⟨false, true, .ok (some "a")⟩] [⟨false, false, .ok (some "z")⟩]
    (fun s => s == "a") true false "b"
    (by intro x hx; simp only [List.mem_singleton] at hx; subst hx; rfl)
    (by decide) rfl

theorem find_files_loop_skip {ex : String → Bool} (r0 : FileRule)
    (h0 : r0.get_filename = .ok none ∨ r0.get_filename = .ok (some "")) :
    ∀ (before after : List FileRule) (fns ps : List String),
    find_files_loop ex (before ++ r0 :: after) fns ps
      = find_files_loop ex (before ++ after) fns ps := by
  intro before
  induction before with
  | nil =>
    intro after fns ps
    have he : "".isEmpty = true := rfl
    rcases h0 with h0 | h0 <;> simp [find_files_loop, h0, he]
  | cons x rest ih =>
    intro after fns ps
    cases hg : x.get_filename with
    | error e => simp [find_files_loop, hg]
    | ok cand =>
      cases cand with
      | none =>
        simp only [List.cons_append, find_files_loop, hg]
        exact ih after fns ps
      | some d =>
        by_cases hde : d.isEmpty
        · simp only [List.cons_append, find_files_loop, hg, hde, if_true]
          exact ih after fns ps
        · by_cases hdx : ex d
          · cases hcasc : x.cascaded with
            | true =>
              simp only [List.cons_append, find_files_loop, hg, hde, hdx, hcasc]
              simp only [Bool.not_true, if_false, Bool.false_eq_true, if_true]
              exact ih after (fns ++ [d]) ps
            | false =>
              simp [find_files_loop, hg, hde, hdx, hcasc]
          · cases henf : x.enforce_file_existence with
            | true =>
              simp [find_files_loop, hg, hde, hdx, henf]
            | false =>
              simp only [List.cons_append, find_files_loop, hg, hde, hdx, henf]
              simp only [Bool.not_false, if_true, Bool.false_eq_true, if_false]
              exact ih after fns (ps ++ [d])

/-- C6: a rule whose supplier returns no value (`None` or the empty
string) is simply skipped — `find_files` on a list holding such a rule,
`enforce_existence` notwithstanding, equals `find_files` on the list
without it; in particular the combination never raises on account of
that rule. -/
theorem find_files_null_candidate_skipped
    (before after : List FileRule) (ex : String → Bool)
    (raise enf casc : Bool) :
    find_files (before ++ ⟨enf, casc, .ok none⟩ :: after) ex raise
      = find_files (before ++ after) ex raise
    ∧ find_files (before ++ ⟨enf, casc, .ok (some "")⟩ :: after) ex raise
      = find_files (before ++ after) ex raise := by
  constructor
  · unfold find_files
    rw [find_files_loop_skip ⟨enf, casc, .ok none⟩ (Or.inl rfl) before after [] []]
  · unfold find_files
    rw [find_files_loop_skip ⟨enf, casc, .ok (some "")⟩ (Or.inr rfl) before after [] []]

theorem find_files_loop_all_missing {ex : String → Bool} :
    ∀ (rules : List FileRule) (fns ps : List String),
    (∀ r ∈ rules, tolerated_missing ex r = true) →
    find_files_loop ex rules fns ps = .ok (fns, ps ++ searched_paths rules) := by
  intro rules
  induction rules with
  | nil => intro fns ps _; simp [find_files_loop, searched_paths]
  | cons r rest ih =>
    intro fns ps hall
    have hr : tolerated_missing ex r = true := hall r (by simp)
    have hrest : ∀ x ∈ rest, tolerated_missing ex x = true :=
      fun x hx => hall x (by simp [hx])
    cases hg : r.get_filename with
    | error e => simp [tolerated_missing, hg] at hr
    | ok cand =>
      cases cand with
      | none =>
        simp only [find_files_loop, hg]
        simpa [searched_paths, hg] using ih fns ps hrest
      | some c =>
        by_cases hce : c.isEmpty
        · simp only [find_files_loop, hg, hce, if_true]
          simpa [searched_paths, hg, hce] using ih fns ps hrest
        · have hmiss : ex c = false ∧ r.enforce_file_existence = false := by
            have := hr
            simp [tolerated_missing, hg, hce] at this
            exact this
          simp only [find_files_loop, hg, hce, hmiss.1, hmiss.2]
          simp only [Bool.not_false, if_true, Bool.false_eq_true, if_false]
          rw [ih (fns) (ps ++ [c]) hrest]
          simp [searched_paths, hg, hce]

/-- C7: when the loop collects no filename — in particular on the empty
rule list, and whenever every rule's candidate is falsy or missing
without enforcement — `find_files` with `raise_on_all_missing=true`
fails with the `NoFileFound` error listing every searched path in order,
comma-joined (zero paths give the empty listing), while with
`raise_on_all_missing=false` it returns the empty list silently. -/
theorem find_files_none_collected (ex : String → Bool) (rules : List FileRule) :
    (find_files [] ex true = .error (.no_file_found "")
     ∧ find_files [] ex false = .ok [])
    ∧ ((∀ r ∈ rules, tolerated_missing ex r = true) →
       find_files rules ex true
         = .error (.no_file_found (String.intercalate ", " (searched_paths rules)))
       ∧ find_files rules ex false = .ok []) := by
  refine ⟨⟨rfl, rfl⟩, ?_⟩
  intro hall
  have hloop := find_files_loop_all_missing rules [] [] hall
  constructor
  · unfold find_files
    rw [hloop]
    simp
  · unfold find_files
    rw [hloop]
    simp

theorem find_files_none_collected_witness :
    find_files [⟨false, false, .ok (some "p")⟩, ⟨true, true, .ok none⟩]
      (fun _ => false) true
      = .error (.no_file_found (String.intercalate ", "
          (searched_paths [⟨false, false, .ok (some "p")⟩, ⟨true, true, .ok none⟩])))
    ∧ find_files [⟨false, false, .ok (some "p")⟩, ⟨true, true, .ok none⟩]
      (fun _ => false) false = .ok [] :=
  (find_files_none_collected (fun _ => false)
    [⟨false, false, .ok (some "p")⟩, ⟨true, true, .ok none⟩]).2
    (by decide)

/-- C8: `find_file` is the specialization of `find_files` with `cascade`
forced false on every rule, returning the first element of the resulting
list, or `null` when that list is empty — the refinement statement
`find_file = find_file_spec` where `find_file_spec` follows the spec's
words. -/
theorem find_file_refines_find_files
    (rs : List (Bool × Except String (Option String)))
    (ex : String → Bool) (raise : Bool) :
    find_file rs ex raise = find_file_spec rs ex raise := by
  unfold find_file find_file_spec
  cases h : find_files (rs.map (fun p => ⟨p.1, false, p.2⟩)) ex raise with
  | error e => simp [Except.map]
  | ok l => cases l <;> simp [Except.map]

theorem choose_cfg_manager_go_spec {M : Type} (parse : Dialect → String → Option M)
    (filename : String) :
    ∀ (ds : List Dialect) (n k : Nat) (inst : CfgInstance M),
    choose_cfg_manager_go parse filename ds n = .ok (inst, k) →
    first_parsing parse filename ds = some inst.dialect
    ∧ inst.filename = filename ∧ inst.cfg_cache = none := by
  intro ds
  induction ds with
  | nil => intro n k inst h; simp [choose_cfg_manager_go] at h
  | cons d rest ih =>
    intro n k inst h
    cases hp : parse d filename with
    | some m =>
      simp only [choose_cfg_manager_go, force_cfg, mkCfgInstance, hp,
        Except.ok.injEq, Prod.mk.injEq] at h
      obtain ⟨hinst, _⟩ := h
      subst hinst
      simp [first_parsing, hp]
    | none =>
      simp only [choose_cfg_manager_go, force_cfg, mkCfgInstance, hp] at h
      have := ih (n + 1) k inst h
      simpa [first_parsing, hp] using this

/-- A registry run in which only the first dialect, `PyCfg`, can parse
the file (parsed mappings drawn from `Nat`). -/
def parsePyOnly : Dialect → String → Option Nat :=
  fun d _ =>
    match d with
    | .PyCfg => some 7
    | _ => none

/-- C2 (counterexample): with a file only `PyCfg` parses,
`choose_cfg_manager` performs one trial parse and returns a *freshly
constructed* instance whose `cfg_cache` is `none` — it does not hold its
cached parsed mapping — and the caller's first access to the mapping
invokes the parser once more (a second parse of the file). -/
theorem choose_cfg_manager_second_parse_cex :
    choose_cfg_manager parsePyOnly "f.rc"
      = .ok (⟨.PyCfg, "f.rc", none⟩, 1)
    ∧ (force_cfg parsePyOnly (⟨.PyCfg, "f.rc", none⟩ : CfgInstance Nat)).2 = 1 :=
  ⟨rfl, rfl⟩

/-- C2 (amended): `choose_cfg_manager` tries the registered dialects in
the fixed priority order `[PyCfg, ConfigObjCfg, YamlCfg]`, constructing
each and forcing a trial load, and selects the first dialect whose trial
load succeeds; the instance it returns, however, is a second, freshly
constructed one whose cache is empty (the trial instance holding the
parsed mapping is discarded at line 152), so the caller's first access
to the mapping parses the file a second time. -/
theorem choose_cfg_manager_selects_first_but_reparses
    {M : Type} (parse : Dialect → String → Option M) (filename : String)
    (inst : CfgInstance M) (n : Nat)
    (h : choose_cfg_manager parse filename = .ok (inst, n)) :
    first_parsing parse filename _GENERIC_CFG = some inst.dialect
    ∧ inst.filename = filename
    ∧ inst.cfg_cache = none
    ∧ (force_cfg parse inst).2 = 1 := by
  obtain ⟨h1, h2, h3⟩ := choose_cfg_manager_go_spec parse filename _GENERIC_CFG 0 n inst h
  refine ⟨h1, h2, h3, ?_⟩
  cases hp : parse inst.dialect inst.filename <;> simp [force_cfg, h3, hp]

theorem choose_cfg_manager_selects_first_but_reparses_witness :
    first_parsing parsePyOnly "f.rc" _GENERIC_CFG
      = some (⟨.PyCfg, "f.rc", none⟩ : CfgInstance Nat).dialect
    ∧ (⟨.PyCfg, "f.rc", none⟩ : CfgInstance Nat).filename = "f.rc"
    ∧ (⟨.PyCfg, "f.rc", none⟩ : CfgInstance Nat).cfg_cache = none
    ∧ (force_cfg parsePyOnly (⟨.PyCfg, "f.rc", none⟩ : CfgInstance Nat)).2 = 1 :=
  choose_cfg_manager_selects_first_but_reparses parsePyOnly "f.rc"
    ⟨.PyCfg, "f.rc", none⟩ 1 rfl

/-- C4 (code evaluated at the failing input): calling `load` with
`local_path` set — here `basename="foo"`, a default supplied, no
explicit `config_file`, the environment variable unset, and an empty
filesystem — raises the `NameError` coming from the unbound name `b` in
the supplier of source line 569, instead of consulting a local-path
rule; and even without `local_path` the assembled default policy holds
the per-user home rule `~/.foo.rc` twice (source lines 572-573), where
the claim has each location contribute one rule. -/
theorem load_default_struct_bugs :
    load (V := Nat) "foo" (some 0) none (fun _ => none) (some "/prj") id
      (fun _ => false)
      = .error (.supplier_raised "NameError: name b is not defined")
    ∧ (default_config_struct "foo" none (fun _ => none) (some "/prj") id)[2]?
        = some ⟨false, true, .error "NameError: name b is not defined"⟩
    ∧ (default_config_struct "foo" none (fun _ => none) none id)[2]?
        = some ⟨false, true, .ok (some "~/.foo.rc")⟩
    ∧ (default_config_struct "foo" none (fun _ => none) none id)[3]?
        = some ⟨false, true, .ok (some "~/.foo.rc")⟩ :=
  ⟨rfl, rfl, rfl, rfl⟩

theorem lookupKey_setKey {α : Type} (k : String) (v : NVal α) :
    ∀ es : List (String × NVal α), lookupKey (setKey es k v) k = some v := by
  intro es
  induction es with
  | nil => simp [setKey, lookupKey]
  | cons e rest ih =>
    obtain ⟨k', v'⟩ := e
    by_cases h : k' = k
    · simp [setKey, lookupKey, h]
    · simp [setKey, lookupKey, h, ih]

theorem mget_mset {α : Type} :
    ∀ (ks : List String) (newv t : NVal α),
    mget ks (mset ks newv t) = some newv := by
  intro ks
  induction ks with
  | nil => intro newv t; rfl
  | cons k rest ih =>
    intro newv t
    simp only [mset, mget, lookupKey_setKey]
    exact ih newv _

theorem tokChars_ne_nil : ∀ (cs acc : List Char), tokChars cs acc ≠ [] := by
  intro cs acc
  induction cs, acc using tokChars.induct with
  | case1 acc => simp [tokChars]
  | case2 acc => simp [tokChars]
  | case3 acc c2 rest2 ih => rw [tokChars.eq_def]; simpa using ih
  | case4 rest acc h ih => rw [tokChars.eq_def]; simp [h]
  | case5 c rest acc hb hd ih => rw [tokChars.eq_def]; simpa [hb, hd] using ih

theorem tokenize_ne_nil (path : String) : tokenize path ≠ [] := by
  unfold tokenize
  intro h
  exact tokChars_ne_nil path.data [] (by simpa using h)

/-- C5: on a view over a read-only dialect (one whose `save` raises),
`set(path, value)` fails with the `UnsupportedWrite` error, and the
in-memory mapping is nonetheless left mutated: resolving the same path
on the post-state view returns the value the failed set assigned. -/
theorem config_setitem_readonly_mutates {α : Type} (v : ConfigView α)
    (label : String) (val : NVal α)
    (hro : v.can_save = false) (hroot : v.provided_cfg = none) :
    (view_setitem v label val).1 = .error .unsupported_write
    ∧ view_resolve_raw (view_setitem v label val).2 label = some val := by
  constructor
  · simp [view_setitem, hro]
  · unfold view_setitem view_resolve_raw
    cases htok : tokenize label with
    | nil => exact absurd htok (tokenize_ne_nil label)
    | cons k ks =>
      simp only [view_cfg, hroot]
      have hdict :
          (NVal.dict (childEntries (mset (k :: ks) val (.dict v.manager_cfg))) : NVal α)
            = mset (k :: ks) val (.dict v.manager_cfg) := by
        simp [mset, childEntries]
      rw [hdict]
      exact mget_mset (k :: ks) val _

theorem config_setitem_readonly_mutates_witness :
    (view_setitem (⟨[], false, none⟩ : ConfigView Nat) "x" (.atom 3)).1
      = .error .unsupported_write
    ∧ view_resolve_raw
        (view_setitem (⟨[], false, none⟩ : ConfigView Nat) "x" (.atom 3)).2 "x"
      = some (.atom 3) :=
  config_setitem_readonly_mutates ⟨[], false, none⟩ "x" (.atom 3) rfl rfl

/-- A key free of the path separator and of the escape character. -/
def plain_key (s : String) : Prop :=
  ∀ c ∈ s.data, c ≠ '\\' ∧ c ≠ '.'

instance (s : String) : Decidable (plain_key s) :=
  List.decidableBAll _ s.data

theorem tokChars_append_dot :
    ∀ (cs : List Char), (∀ c ∈ cs, c ≠ '\\' ∧ c ≠ '.') →
    ∀ (l2 acc : List Char),
    tokChars (cs ++ '.' :: l2) acc = (acc ++ cs) :: tokChars l2 [] := by
  intro cs
  induction cs with
  | nil =>
    intro _ l2 acc
    have hne : ¬ ('.' : Char) = '\\' := by decide
    rw [List.nil_append, tokChars.eq_def]
    simp [hne]
  | cons c cs ih =>
    intro h l2 acc
    have hc := h c (by simp)
    have hcs : ∀ x ∈ cs, x ≠ '\\' ∧ x ≠ '.' := fun x hx => h x (by simp [hx])
    rw [List.cons_append, tokChars.eq_def]
    simp only [hc.1, hc.2, if_false]
    rw [ih hcs l2 (acc ++ [c])]
    simp

theorem tokChars_plain :
    ∀ (cs : List Char), (∀ c ∈ cs, c ≠ '\\' ∧ c ≠ '.') →
    ∀ (acc : List Char), tokChars cs acc = [acc ++ cs] := by
  intro cs
  induction cs with
  | nil => intro _ acc; simp [tokChars]
  | cons c cs ih =>
    intro h acc
    have hc := h c (by simp)
    have hcs : ∀ x ∈ cs, x ≠ '\\' ∧ x ≠ '.' := fun x hx => h x (by simp [hx])
    rw [tokChars.eq_def]
    simp only [hc.1, hc.2, if_false]
    rw [ih hcs (acc ++ [c])]
    simp

theorem tokenize_plain (a : String) (h : plain_key a) : tokenize a = [a] := by
  obtain ⟨d⟩ := a
  unfold tokenize
  rw [tokChars_plain d (by simpa [plain_key] using h) []]
  rfl

theorem tokenize_dotted (a b : String) (ha : plain_key a) (hb : plain_key b) :
    tokenize (a ++ "." ++ b) = [a, b] := by
  obtain ⟨da⟩ := a
  obtain ⟨db⟩ := b
  unfold tokenize
  have hdata : (String.mk da ++ "." ++ String.mk db).data = da ++ '.' :: db := by
    simp [String.data_append]
  rw [hdata, tokChars_append_dot da (by simpa [plain_key] using ha) db []]
  rw [tokChars_plain db (by simpa [plain_key] using hb) []]
  rfl

theorem lookupKey_some_ne_nil {α : Type} {es : List (String × NVal α)}
    {k : String} {v : NVal α} (h : lookupKey es k = some v) : es ≠ [] := by
  intro hnil
  subst hnil
  simp [lookupKey] at h

/-- C9: dotted single-string access equals repeated nested access — for
plain keys `a`, `b` (free of separator and escape characters) with a
nested mapping at `a` holding `b`, `cfg["a.b"]` descends exactly as
`cfg["a"]["b"]` — and a single mapping key containing a literal dot is
reachable only through the escaped token, which is a distinct addressing
outcome from the unescaped dotted path. -/
theorem config_dotted_equals_nested {α : Type}
    (mgr : List (String × NVal α)) (can_sv : Bool) (a b : String)
    (es : List (String × NVal α)) (val : NVal α)
    (ha : plain_key a) (hb : plain_key b)
    (hma : lookupKey mgr a = some (.dict es))
    (hmb : lookupKey es b = some val) :
    (∃ sv : ConfigView α,
       view_getitem ⟨mgr, can_sv, none⟩ a = some (.subview sv)
       ∧ view_getitem ⟨mgr, can_sv, none⟩ (a ++ "." ++ b) = view_getitem sv b)
    ∧ view_getitem (⟨[("a.b", .atom 1)], true, none⟩ : ConfigView Nat) "a\\.b"
        = some (.value 1)
    ∧ view_getitem (⟨[("a.b", .atom 1)], true, none⟩ : ConfigView Nat) "a.b"
        = none
    ∧ view_getitem
        (⟨[("a", .dict [("b", .atom 1)]), ("a.b", .atom 2)], true, none⟩ :
          ConfigView Nat) "a.b" = some (.value 1)
    ∧ view_getitem
        (⟨[("a", .dict [("b", .atom 1)]), ("a.b", .atom 2)], true, none⟩ :
          ConfigView Nat) "a\\.b" = some (.value 2) := by
  refine ⟨?_, rfl, rfl, rfl, rfl⟩
  refine ⟨⟨mgr, can_sv, some es⟩, ?_, ?_⟩
  · unfold view_getitem view_resolve_raw
    rw [tokenize_plain a ha]
    simp [view_cfg, mget, hma]
  · unfold view_getitem view_resolve_raw
    rw [tokenize_dotted a b ha hb, tokenize_plain b hb]
    have hes : es.isEmpty = false := by
      cases es with
      | nil => exact absurd rfl (lookupKey_some_ne_nil hmb)
      | cons e es' => rfl
    simp only [view_cfg, hes, Bool.false_eq_true, if_false]
    simp [mget, hma, hmb]

theorem config_dotted_equals_nested_witness :
    (∃ sv : ConfigView Nat,
       view_getitem ⟨[("a", .dict [("b", .atom 1)])], true, none⟩ "a"
         = some (.subview sv)
       ∧ view_getitem ⟨[("a", .dict [("b", .atom 1)])], true, none⟩
           ("a" ++ "." ++ "b") = view_getitem sv "b")
    ∧ view_getitem (⟨[("a.b", .atom 1)], true, none⟩ : ConfigView Nat) "a\\.b"
        = some (.value 1)
    ∧ view_getitem (⟨[("a.b", .atom 1)], true, none⟩ : ConfigView Nat) "a.b"
        = none
    ∧ view_getitem
        (⟨[("a", .dict [("b", .atom 1)]), ("a.b", .atom 2)], true, none⟩ :
          ConfigView Nat) "a.b" = some (.value 1)
    ∧ view_getitem
        (⟨[("a", .dict [("b", .atom 1)]), ("a.b", .atom 2)], true, none⟩ :
          ConfigView Nat) "a\\.b" = some (.value 2) :=
  config_dotted_equals_nested [("a", .dict [("b", .atom 1)])] true "a" "b"
    [("b", .atom 1)] (.atom 1) (by decide) (by decide) rfl rfl

/-- C10: the `_cfg` guard tests the *truthiness* of the provided
sub-mapping, not whether one was supplied — a descended view whose
sub-mapping is empty therefore resolves item access, iteration and
containment against the backend's full root mapping (observing the
root's keys rather than no keys), while a descended view with a
non-empty sub-mapping resolves against that sub-mapping; and descending
into an empty nested mapping is exactly what produces such a view. -/
theorem config_empty_subview_falls_back {α : Type}
    (mgr es : List (String × NVal α)) (can_sv : Bool) :
    (view_cfg (⟨mgr, can_sv, some []⟩ : ConfigView α) = mgr
     ∧ (∀ l, view_getitem (⟨mgr, can_sv, some []⟩ : ConfigView α) l
          = view_getitem ⟨mgr, can_sv, none⟩ l)
     ∧ view_keys (⟨mgr, can_sv, some []⟩ : ConfigView α)
         = view_keys ⟨mgr, can_sv, none⟩
     ∧ (∀ k, view_contains (⟨mgr, can_sv, some []⟩ : ConfigView α) k
          = view_contains ⟨mgr, can_sv, none⟩ k)
     ∧ (∀ a, plain_key a → lookupKey mgr a = some (.dict []) →
          view_getitem ⟨mgr, can_sv, none⟩ a
            = some (.subview ⟨mgr, can_sv, some []⟩)))
    ∧ (es ≠ [] → view_cfg (⟨mgr, can_sv, some es⟩ : ConfigView α) = es) := by
  have hcfg : view_cfg (⟨mgr, can_sv, some []⟩ : ConfigView α) = mgr := rfl
  refine ⟨⟨hcfg, ?_, ?_, ?_, ?_⟩, ?_⟩
  · intro l
    unfold view_getitem view_resolve_raw
    rw [hcfg]
    rfl
  · unfold view_keys
    rw [hcfg]
    rfl
  · intro k
    unfold view_contains
    rw [hcfg]
    rfl
  · intro a hpa hma
    unfold view_getitem view_resolve_raw
    rw [tokenize_plain a hpa]
    simp [view_cfg, mget, hma]
  · intro hes
    cases es with
    | nil => exact absurd rfl hes
    | cons e es' => rfl

theorem config_empty_subview_falls_back_witness :
    (view_cfg (⟨[("a", .dict [])], true, some []⟩ : ConfigView Nat)
       = [("a", .dict [])]
     ∧ view_getitem (⟨[("a", .dict [])], true, some []⟩ : ConfigView Nat) "a"
         = view_getitem ⟨[("a", .dict [])], true, none⟩ "a")
    ∧ view_getitem (⟨[("a", .dict [])], true, none⟩ : ConfigView Nat) "a"
        = some (.subview ⟨[("a", .dict [])], true, some []⟩)
    ∧ view_cfg (⟨[("a", .dict [])], true, some [("x", .atom 0)]⟩ : ConfigView Nat)
        = [("x", .atom 0)] := by
  have h := config_empty_subview_falls_back
    (α := Nat) [("a", .dict [])] [("x", .atom 0)] true
  exact ⟨⟨h.1.1, h.1.2.1 "a"⟩,
    h.1.2.2.2.2 "a" (by decide) rfl,
    h.2 (by simp)⟩

end KidsCfg
